import Mathlib

/-!
Verification of the PID simulator's core semantics.

The controller (`src/lib/pidController.ts`), the auto-tuner, the
multi-controller simulation tick and its bounded history buffer, and the
analysis metrics (`src/app/page.tsx`) are embedded shallowly.  JavaScript
numbers are modelled as exact rationals (idealized real arithmetic); the
`JsNum` type below additionally models IEEE-754 special values (Infinity,
NaN) for the divisions by zero that the rationals cannot express.
-/

namespace Pid

/-- The `ControllerType` enum of `src/lib/pidController.ts`. -/
inductive ControllerType
  | P
  | PI
  | PD
  | PID
deriving DecidableEq, Repr

/-- The `PIDController` class fields: identity, gains, mode, and the mutable
per-controller state `integral` and `previousError` (both `0` in the
constructor). -/
structure PIDController where
  name : String
  kp : ℚ
  ki : ℚ
  kd : ℚ
  type : ControllerType
  integral : ℚ
  previousError : ℚ
deriving DecidableEq, Repr

/-- `PIDController.update(error, dt)`: accumulates the integral, computes the
derivative from the previous error, stores the new previous error, then
selects the output formula by mode.  Mutation is modelled by returning the
updated controller next to the output. -/
def update (c : PIDController) (error dt : ℚ) : PIDController × ℚ :=
  let integral := c.integral + error * dt
  let derivative := (error - c.previousError) / dt
  let c2 : PIDController :=
    { c with integral := integral, previousError := error }
  let output :=
    match c.type with
    | ControllerType.P => c.kp * error
    | ControllerType.PI => c.kp * error + c.ki * integral
    | ControllerType.PD => c.kp * error + c.kd * derivative
    | ControllerType.PID =>
        c.kp * error + c.ki * integral + c.kd * derivative
  (c2, output)

/-- The UI's mode switch `updateController(index, \x7b type \x7d)`: an object
spread that replaces only the `type` field. -/
def setType (c : PIDController) (t : ControllerType) : PIDController :=
  { c with type := t }

/-- The `SystemCharacteristics` interface. -/
structure SystemCharacteristics where
  processGain : ℚ
  timeConstant : ℚ
  deadTime : ℚ
deriving DecidableEq, Repr

/-- The gain triple returned by `autoTune`. -/
structure Gains where
  kp : ℚ
  ki : ℚ
  kd : ℚ
deriving DecidableEq, Repr

/-- `autoTune(system)`: the Ziegler-Nichols style closed form of
`src/lib/pidController.ts`.  The source performs no input validation. -/
def autoTune (system : SystemCharacteristics) : Gains :=
  let ku := 0.6 * system.processGain * (system.timeConstant / system.deadTime)
  let tu := 2 * system.deadTime
  { kp := 0.6 * ku, ki := 1.2 * ku / tu, kd := 0.075 * ku * tu }

/-- JavaScript number arithmetic restricted to what the divisions by zero in
the source can produce: a finite value is kept exact as a rational, and the
IEEE-754 special values Infinity, -Infinity and NaN are explicit.  Rounding of
finite results and signed zero are not modelled (they do not affect
finiteness, which is all this type is used to decide). -/
inductive JsNum
  | fin (q : ℚ)
  | inf
  | ninf
  | nan
deriving DecidableEq, Repr

namespace JsNum

/-- IEEE-754 addition on `JsNum`. -/
def add : JsNum → JsNum → JsNum
  | fin a, fin b => fin (a + b)
  | fin _, inf => inf
  | fin _, ninf => ninf
  | inf, fin _ => inf
  | ninf, fin _ => ninf
  | inf, inf => inf
  | ninf, ninf => ninf
  | inf, ninf => nan
  | ninf, inf => nan
  | nan, _ => nan
  | _, nan => nan

/-- IEEE-754 subtraction on `JsNum`. -/
def sub : JsNum → JsNum → JsNum
  | fin a, fin b => fin (a - b)
  | fin _, inf => ninf
  | fin _, ninf => inf
  | inf, fin _ => inf
  | ninf, fin _ => ninf
  | inf, ninf => inf
  | ninf, inf => ninf
  | inf, inf => nan
  | ninf, ninf => nan
  | nan, _ => nan
  | _, nan => nan

/-- IEEE-754 multiplication on `JsNum`; `0 * Infinity = NaN`. -/
def mul : JsNum → JsNum → JsNum
  | fin a, fin b => fin (a * b)
  | fin a, inf => if 0 < a then inf else if a < 0 then ninf else nan
  | fin a, ninf => if 0 < a then ninf else if a < 0 then inf else nan
  | inf, fin b => if 0 < b then inf else if b < 0 then ninf else nan
  | ninf, fin b => if 0 < b then ninf else if b < 0 then inf else nan
  | inf, inf => inf
  | inf, ninf => ninf
  | ninf, inf => ninf
  | ninf, ninf => inf
  | nan, _ => nan
  | _, nan => nan

/-- IEEE-754 division on `JsNum`; a nonzero finite value divided by zero gives
a signed infinity, `0 / 0 = NaN` (signed zero is not modelled, so division by
zero takes the positive-zero branch, as the source only ever produces `dt = 0`
and `deadTime = 0` as literal `0`). -/
def div : JsNum → JsNum → JsNum
  | fin a, fin b =>
      if b = 0 then (if 0 < a then inf else if a < 0 then ninf else nan)
      else fin (a / b)
  | fin _, inf => fin 0
  | fin _, ninf => fin 0
  | inf, fin b => if 0 ≤ b then inf else ninf
  | ninf, fin b => if 0 ≤ b then ninf else inf
  | inf, inf => nan
  | inf, ninf => nan
  | ninf, inf => nan
  | ninf, ninf => nan
  | nan, _ => nan
  | _, nan => nan

end JsNum

/-- The `PIDController` fields with JavaScript number semantics, for the
`dt = 0` analysis. -/
structure PIDControllerJs where
  name : String
  kp : JsNum
  ki : JsNum
  kd : JsNum
  type : ControllerType
  integral : JsNum
  previousError : JsNum
deriving DecidableEq, Repr

/-- `PIDController.update(error, dt)` re-read over `JsNum`: the derivative
`(error - previousError) / dt` is computed unconditionally in every mode, so
`dt = 0` reaches IEEE division by zero. -/
def updateJs (c : PIDControllerJs) (error dt : JsNum) : PIDControllerJs × JsNum :=
  let integral := c.integral.add (error.mul dt)
  let derivative := (error.sub c.previousError).div dt
  let c2 : PIDControllerJs :=
    { c with integral := integral, previousError := error }
  let output :=
    match c.type with
    | ControllerType.P => c.kp.mul error
    | ControllerType.PI => (c.kp.mul error).add (c.ki.mul integral)
    | ControllerType.PD => (c.kp.mul error).add (c.kd.mul derivative)
    | ControllerType.PID =>
        ((c.kp.mul error).add (c.ki.mul integral)).add (c.kd.mul derivative)
  (c2, output)

/-- `autoTune` re-read over `JsNum`: the source divides by `deadTime` with no
validation, so `deadTime = 0` reaches IEEE division by zero. -/
def autoTuneJs (processGain timeConstant deadTime : JsNum) :
    JsNum × JsNum × JsNum :=
  let ku := ((JsNum.fin 0.6).mul processGain).mul (timeConstant.div deadTime)
  let tu := (JsNum.fin 2).mul deadTime
  ((JsNum.fin 0.6).mul ku, ((JsNum.fin 1.2).mul ku).div tu,
    ((JsNum.fin 0.075).mul ku).mul tu)

/-- One controller's per-tick record in a data row of
`AdvancedPIDVisualizer.updateSimulation`. -/
structure CtrlSample where
  processVariable : ℚ
  error : ℚ
  output : ℚ
deriving DecidableEq, Repr

/-- One row appended to `data` per tick: the per-controller records keyed by
controller name, plus the tick-wide `time`, `setpoint` and `disturbance`. -/
structure TickRow where
  entries : List (String × CtrlSample)
  time : ℚ
  setpoint : ℚ
  disturbance : ℚ
deriving DecidableEq, Repr

/-- `prevData[prevData.length - 1]?.[controller.name] || ... processVariable
... : 0 ...`: the last known process variable of a named controller, `0` when
there is no prior row or the row has no record for that name. -/
def lookupPV (row : Option TickRow) (name : String) : ℚ :=
  match row with
  | none => 0
  | some r =>
      match r.entries.lookup name with
      | none => 0
      | some s => s.processVariable

/-- The per-controller body of `updateSimulation`'s reduce: for each
controller, error against the shared setpoint, `controller.update(error, 0.1)`,
and the plant step `processVariable + output * 0.1 + disturbance`.  Returns
the mutated controllers next to the new per-controller records. -/
def tickControllers (controllers : List PIDController) (prev : Option TickRow)
    (setpoint disturbance : ℚ) : List PIDController × List (String × CtrlSample) :=
  match controllers with
  | [] => ([], [])
  | c :: rest =>
      let pv := lookupPV prev c.name
      let error := setpoint - pv
      let r := update c error (1/10)
      let newPV := pv + r.2 * (1/10) + disturbance
      let rest2 := tickControllers rest prev setpoint disturbance
      (r.1 :: rest2.1, (c.name, ⟨newPV, error, r.2⟩) :: rest2.2)

/-- `l.slice(-n)` of JavaScript: the at most `n` most recent elements, in
order. -/
def takeLast (n : ℕ) (l : List α) : List α := l.drop (l.length - n)

/-- `[...prevData, newPoint].slice(-100)`: append one row, retaining the 100
most recent rows.  Both simulation variants in `src/app/page.tsx` use this
exact buffer update. -/
def pushRow (buf : List α) (x : α) : List α := takeLast 100 (buf ++ [x])

/-- One whole tick of `AdvancedPIDVisualizer.updateSimulation`: run every
controller against the last row, form the new row, and push it onto the
bounded history. -/
def updateSimulation (controllers : List PIDController) (data : List TickRow)
    (time setpoint disturbance : ℚ) : List PIDController × List TickRow :=
  let r := tickControllers controllers data.getLast? setpoint disturbance
  (r.1, pushRow data ⟨r.2, time, setpoint, disturbance⟩)

/-- The settling band test of the analysis tab:
`Math.abs(pv - setpoint) < 0.05 * setpoint` — note: no absolute value around
the setpoint. -/
def settleBand (sp pv : ℚ) : Bool := decide (|pv - sp| < 0.05 * sp)

/-- JavaScript `Array.findIndex` with the running index made explicit:
`-1` when no element satisfies the predicate. -/
def jsFindIndexFrom (p : ℕ → ℚ → Bool) : ℕ → List ℚ → Int
  | _, [] => -1
  | i, x :: xs => if p i x then (i : Int) else jsFindIndexFrom p (i + 1) xs

/-- The settling-time metric of the analysis tab, over one controller's
process-variable trace: `findIndex` of the first `i > 0` whose sample and all
later samples are inside the band, multiplied by `0.1` — the `-1` of a failed
search is multiplied too, yielding `-0.1`. -/
def settlingTime (data : List ℚ) (sp : ℚ) : ℚ :=
  ((jsFindIndexFrom
      (fun i pv =>
        decide (0 < i) && settleBand sp pv && (data.drop i).all (settleBand sp))
      0 data : Int) : ℚ) * (1/10)

/-- Modelled from the spec's words, for comparison with `settlingTime`: dt
times the first index `i > 0` from which every sample satisfies
`|processVariable - setpoint| < 0.05 * |setpoint|`, and the distinct value
`none` when no such index exists. -/
def settlingTimeSpec (data : List ℚ) (sp : ℚ) : Option ℚ :=
  ((List.range data.length).find?
      (fun i =>
        decide (0 < i) && (data.drop i).all (fun pv => decide (|pv - sp| < 0.05 * |sp|)))).map
    (fun i => (i : ℚ) * (1/10))

/-- The overshoot metric of the analysis tab, over one controller's
process-variable trace: `data.reduce((max, point) => Math.max(max, pv), 0) -
setpoint` — the reduce is seeded with `0`, so the maximum is floored at `0`. -/
def overshoot (pvs : List ℚ) (sp : ℚ) : ℚ :=
  pvs.foldl (fun m pv => max m pv) 0 - sp

/-- The settling condition realized by the code's `findIndex` predicate: a
real index `i > 0` of the trace from which every sample (inclusive) lies in
the code's band `|pv - sp| < 0.05 * sp`. -/
def settledFrom (data : List ℚ) (sp : ℚ) (i : ℕ) : Prop :=
  0 < i ∧ i < data.length ∧ (data.drop i).all (settleBand sp) = true

instance (data : List ℚ) (sp : ℚ) : DecidablePred (settledFrom data sp) :=
  fun _ => by unfold settledFrom; infer_instance

/-- C1: for every controller and `dt > 0`, the output of `update(error, dt)`
is selected by the mode — `kp*error` in P, plus `ki*integral` (the integral
after this call's accumulation) in PI, plus `kd*(error - previousError)/dt`
in PD, and all three terms in PID — with gains of the excluded terms ignored:
in mode P the output is `kp*error` for all `ki`, `kd`. -/
theorem C1_output_by_mode (c : PIDController) (error dt : ℚ) (_hdt : 0 < dt) :
    (update c error dt).2 =
      match c.type with
      | ControllerType.P => c.kp * error
      | ControllerType.PI => c.kp * error + c.ki * (c.integral + error * dt)
      | ControllerType.PD =>
          c.kp * error + c.kd * ((error - c.previousError) / dt)
      | ControllerType.PID =>
          c.kp * error + c.ki * (c.integral + error * dt)
            + c.kd * ((error - c.previousError) / dt) := by
  rcases c with ⟨n, kp, ki, kd, ty, ig, pe⟩
  cases ty <;> rfl

/-- Witness for C1 at a concrete P-mode controller with nonzero `ki`, `kd`. -/
theorem C1_output_by_mode_witness :
    (0 : ℚ) < 1 ∧
    (update ⟨"a", 2, 3, 4, ControllerType.P, 5, 6⟩ 7 1).2 = 2 * 7 :=
  ⟨by norm_num,
    C1_output_by_mode ⟨"a", 2, 3, 4, ControllerType.P, 5, 6⟩ 7 1 (by norm_num)⟩

/-- C9: `update` changes the state identically in every mode: the whole
post-state is the pre-state with `integral := integral + error*dt` and
`previousError := error` and nothing else touched; and the UI's mode switch
(`setType`) leaves `integral` and `previousError` unchanged. -/
theorem C9_state_frame (c : PIDController) (error dt : ℚ) (t : ControllerType) :
    (update c error dt).1 =
      { c with integral := c.integral + error * dt, previousError := error } ∧
    (setType c t).integral = c.integral ∧
    (setType c t).previousError = c.previousError :=
  ⟨rfl, rfl, rfl⟩

/-- C10: in modes PI and PID the integral term of the output uses the
integral after this call's accumulation, while the derivative term uses the
previous error from before this call. -/
theorem C10_integral_derivative_order (c : PIDController) (error dt : ℚ) :
    (c.type = ControllerType.PI →
      (update c error dt).2 = c.kp * error + c.ki * (c.integral + error * dt)) ∧
    (c.type = ControllerType.PID →
      (update c error dt).2 =
        c.kp * error + c.ki * (c.integral + error * dt)
          + c.kd * ((error - c.previousError) / dt)) := by
  rcases c with ⟨n, kp, ki, kd, ty, ig, pe⟩
  constructor <;> intro h <;> cases ty <;> simp_all [update]

/-- Witness for C10 at a concrete PI-mode controller. -/
theorem C10_integral_derivative_order_witness :
    (⟨"a", 1, 2, 3, ControllerType.PI, 4, 5⟩ : PIDController).type =
      ControllerType.PI ∧
    (update ⟨"a", 1, 2, 3, ControllerType.PI, 4, 5⟩ 6 2).2 = 1 * 6 + 2 * (4 + 6 * 2) :=
  ⟨rfl,
    (C10_integral_derivative_order ⟨"a", 1, 2, 3, ControllerType.PI, 4, 5⟩ 6 2).1 rfl⟩

/-- C4 counterexample: at processGain 1, timeConstant 1, deadTime 0.1 the
code's `kd` is `0.075 * 6 * 0.2 = 0.09`, not the `0.54` the claim asserts. -/
theorem C4_kd_counterexample :
    (autoTune ⟨1, 1, 0.1⟩).kd = 0.09 ∧ (autoTune ⟨1, 1, 0.1⟩).kd ≠ 0.54 := by
  norm_num [autoTune]

/-- C4 (amended): for deadTime ≠ 0, `autoTune` returns exactly the closed
form `ku = 0.6*processGain*(timeConstant/deadTime)`, `tu = 2*deadTime`,
`kp = 0.6*ku`, `ki = 1.2*ku/tu`, `kd = 0.075*ku*tu`; at the sample input the
gains are kp = 3.6, ki = 36 and kd = 0.09 (not 0.54). -/
theorem C4_autoTune_formulas (s : SystemCharacteristics) (_h : s.deadTime ≠ 0) :
    (autoTune s).kp =
      0.6 * (0.6 * s.processGain * (s.timeConstant / s.deadTime)) ∧
    (autoTune s).ki =
      1.2 * (0.6 * s.processGain * (s.timeConstant / s.deadTime))
        / (2 * s.deadTime) ∧
    (autoTune s).kd =
      0.075 * (0.6 * s.processGain * (s.timeConstant / s.deadTime))
        * (2 * s.deadTime) ∧
    autoTune ⟨1, 1, 0.1⟩ = ⟨3.6, 36, 0.09⟩ :=
  ⟨rfl, rfl, rfl, by norm_num [autoTune, Gains.mk.injEq]⟩

/-- Witness for C4 at deadTime 1/10. -/
theorem C4_autoTune_formulas_witness :
    ((1 : ℚ)/10 ≠ 0) ∧
    (autoTune ⟨1, 1, 1/10⟩).kd =
      0.075 * (0.6 * 1 * (1 / ((1 : ℚ)/10))) * (2 * ((1 : ℚ)/10)) :=
  ⟨by norm_num, (C4_autoTune_formulas ⟨1, 1, 1/10⟩ (by norm_num)).2.2.1⟩

/-- C5: contrary to the claim, `autoTune` performs no validation: at
deadTime = 0 it does not fail but computes through IEEE division by zero and
returns kp = Infinity, ki = Infinity, kd = NaN. -/
theorem C5_autoTune_no_validation :
    autoTuneJs (JsNum.fin 1) (JsNum.fin 1) (JsNum.fin 0) =
      (JsNum.inf, JsNum.inf, JsNum.nan) := by
  norm_num [autoTuneJs, JsNum.mul, JsNum.div]

/-- C6: contrary to the claim, `update` neither rejects `dt = 0` nor skips
the derivative term: in mode PID with kd = 1 it returns Infinity, and in
mode PD with kd = 0 it returns NaN (`0 * Infinity`). -/
theorem C6_update_dt_zero_nonfinite :
    (updateJs
        ⟨"PID 1", JsNum.fin 1, JsNum.fin 0, JsNum.fin 1, ControllerType.PID,
          JsNum.fin 0, JsNum.fin 0⟩
        (JsNum.fin 1) (JsNum.fin 0)).2 = JsNum.inf ∧
    (updateJs
        ⟨"PID 2", JsNum.fin 1, JsNum.fin 0, JsNum.fin 0, ControllerType.PD,
          JsNum.fin 0, JsNum.fin 0⟩
        (JsNum.fin 1) (JsNum.fin 0)).2 = JsNum.nan := by
  constructor <;> norm_num [updateJs, JsNum.mul, JsNum.div, JsNum.add, JsNum.sub]

/-- Re-bounding an already bounded buffer and appending commutes with
appending first and bounding once. -/
theorem takeLast_append_left (n : ℕ) (l t : List α) :
    takeLast n (takeLast n l ++ t) = takeLast n (l ++ t) := by
  unfold takeLast
  rcases le_or_lt l.length n with h | h
  · rw [Nat.sub_eq_zero_of_le h]
    simp
  · have h1 : l.length - n ≤ l.length := Nat.sub_le _ _
    rw [← List.drop_append_of_le_length h1, List.drop_drop]
    congr 1
    simp only [List.length_drop, List.length_append]
    omega

/-- Folding the code's buffer update over any stream of rows keeps exactly
the at most 100 most recent rows, in insertion order. -/
theorem foldl_pushRow_eq_takeLast (l : List α) :
    l.foldl pushRow [] = takeLast 100 l := by
  have key : ∀ (rest pre : List α),
      rest.foldl pushRow (takeLast 100 pre) = takeLast 100 (pre ++ rest) := by
    intro rest
    induction rest with
    | nil => intro pre; simp
    | cons x xs ih =>
        intro pre
        have hstep : pushRow (takeLast 100 pre) x = takeLast 100 (pre ++ [x]) :=
          takeLast_append_left 100 pre [x]
        rw [List.foldl_cons, hstep, ih (pre ++ [x])]
        simp
  have h0 : ([] : List α) = takeLast 100 ([] : List α) := rfl
  rw [h0, key l []]
  simp

/-- C3: the history buffer, produced by folding the code's
append-then-`slice(-100)` update over the stream of rows, never exceeds 100
entries, is exactly the most recent at most 100 rows in insertion order
(oldest evicted first), and after 150 ticks it has exactly 100 rows whose
first entry is the row appended at the 51st tick (so its `time` field is the
51st tick's time). -/
theorem C3_history_bound_fifo (rows : List TickRow) :
    (rows.foldl pushRow []).length ≤ 100 ∧
    rows.foldl pushRow [] = takeLast 100 rows ∧
    (rows.foldl pushRow []) <:+ rows ∧
    (rows.length = 150 →
      (rows.foldl pushRow []).length = 100 ∧
      (rows.foldl pushRow []).head? = rows[50]?) := by
  have hfold := foldl_pushRow_eq_takeLast rows
  refine ⟨?_, hfold, ?_, fun h150 => ⟨?_, ?_⟩⟩
  · rw [hfold]
    unfold takeLast
    simp only [List.length_drop]
    omega
  · rw [hfold]
    exact List.drop_suffix _ _
  · rw [hfold]
    unfold takeLast
    simp only [List.length_drop]
    omega
  · rw [hfold]
    unfold takeLast
    rw [h150, List.head?_eq_getElem?, List.getElem?_drop]

/-- Witness for C3 at a concrete 150-row stream with times 0.0, 0.1, ... -/
theorem C3_history_bound_fifo_witness :
    (((List.range 150).map
        (fun (k : ℕ) => (⟨[], (k : ℚ) / 10, 0, 0⟩ : TickRow))).length = 150) ∧
    ((((List.range 150).map
        (fun (k : ℕ) => (⟨[], (k : ℚ) / 10, 0, 0⟩ : TickRow))).foldl pushRow []).length
      = 100) ∧
    ((((List.range 150).map
        (fun (k : ℕ) => (⟨[], (k : ℚ) / 10, 0, 0⟩ : TickRow))).foldl pushRow []).head?
      = ((List.range 150).map
          (fun (k : ℕ) => (⟨[], (k : ℚ) / 10, 0, 0⟩ : TickRow)))[50]?) := by
  have hlen : (((List.range 150).map
      (fun (k : ℕ) => (⟨[], (k : ℚ) / 10, 0, 0⟩ : TickRow))).length = 150) := by
    simp
  have h := (C3_history_bound_fifo _).2.2.2 hlen
  exact ⟨hlen, h.1, h.2⟩

/-- C2: in every tick of `AdvancedPIDVisualizer.updateSimulation`, the j-th
active controller's record is built from `error = setpoint - lastPV` (with
`lastPV = 0` when no prior sample exists), `output = update(error, 0.1)`, and
the plant step `newPV = lastPV + output*0.1 + disturbance` — the disturbance
enters only the plant step, not the error. -/
theorem C2_tick_per_controller (controllers : List PIDController)
    (prev : Option TickRow) (sp dist : ℚ) (j : ℕ) (c : PIDController)
    (hc : controllers[j]? = some c) :
    (tickControllers controllers prev sp dist).2[j]? =
      some (c.name,
        ⟨lookupPV prev c.name
            + (update c (sp - lookupPV prev c.name) (1/10)).2 * (1/10) + dist,
          sp - lookupPV prev c.name,
          (update c (sp - lookupPV prev c.name) (1/10)).2⟩) ∧
    lookupPV none c.name = 0 := by
  refine ⟨?_, rfl⟩
  induction controllers generalizing j with
  | nil => simp at hc
  | cons hd tl ih =>
      cases j with
      | zero =>
          simp only [List.getElem?_cons_zero, Option.some.injEq] at hc
          subst hc
          simp [tickControllers]
      | succ k =>
          simp only [List.getElem?_cons_succ] at hc
          simpa [tickControllers] using ih k hc

/-- Witness for C2: one fresh PID controller, no prior data, setpoint 1. -/
theorem C2_tick_per_controller_witness :
    ([(⟨"PID 1", 1, 0, 0, ControllerType.PID, 0, 0⟩ : PIDController)])[0]? =
      some (⟨"PID 1", 1, 0, 0, ControllerType.PID, 0, 0⟩ : PIDController) ∧
    (tickControllers [⟨"PID 1", 1, 0, 0, ControllerType.PID, 0, 0⟩]
        none 1 0).2[0]? =
      some ("PID 1",
        ⟨0 + (update ⟨"PID 1", 1, 0, 0, ControllerType.PID, 0, 0⟩ (1 - 0)
            (1/10)).2 * (1/10) + 0,
          1 - 0,
          (update ⟨"PID 1", 1, 0, 0, ControllerType.PID, 0, 0⟩ (1 - 0)
            (1/10)).2⟩) :=
  ⟨rfl,
    (C2_tick_per_controller [⟨"PID 1", 1, 0, 0, ControllerType.PID, 0, 0⟩]
      none 1 0 0 ⟨"PID 1", 1, 0, 0, ControllerType.PID, 0, 0⟩ rfl).1⟩

/-- `findIndex` returns -1 when the predicate fails at every real index. -/
theorem jsFindIndexFrom_eq_neg_one (p : ℕ → ℚ → Bool) :
    ∀ (l : List ℚ) (i : ℕ),
      (∀ k x, l[k]? = some x → p (i + k) x = false) →
      jsFindIndexFrom p i l = -1 := by
  intro l
  induction l with
  | nil => intro i _; rfl
  | cons a as ih =>
      intro i h
      have ha : p i a = false := by simpa using h 0 a (by simp)
      simp only [jsFindIndexFrom, ha, Bool.false_eq_true, if_false]
      refine ih (i + 1) (fun k x hk => ?_)
      have harith : i + 1 + k = i + (k + 1) := by omega
      rw [harith]
      exact h (k + 1) x (by simpa using hk)

/-- `findIndex` returns the first index at which the predicate holds. -/
theorem jsFindIndexFrom_eq_of_first (p : ℕ → ℚ → Bool) :
    ∀ (l : List ℚ) (i k : ℕ) (x : ℚ),
      l[k]? = some x → p (i + k) x = true →
      (∀ m y, m < k → l[m]? = some y → p (i + m) y = false) →
      jsFindIndexFrom p i l = ((i + k : ℕ) : Int) := by
  intro l
  induction l with
  | nil => intro i k x hk _ _; simp at hk
  | cons a as ih =>
      intro i k x hk hx hmin
      cases k with
      | zero =>
          simp only [List.getElem?_cons_zero, Option.some.injEq] at hk
          subst hk
          rw [Nat.add_zero] at hx ⊢
          simp [jsFindIndexFrom, hx]
      | succ k2 =>
          have ha : p i a = false := by
            have := hmin 0 a (Nat.succ_pos k2) (by simp)
            simpa using this
          simp only [jsFindIndexFrom, ha, Bool.false_eq_true, if_false]
          have harith : i + 1 + k2 = i + (k2 + 1) := by omega
          have hres := ih (i + 1) k2 x (by simpa using hk)
            (by rw [harith]; exact hx)
            (fun m y hm hy => by
              have harith2 : i + 1 + m = i + (m + 1) := by omega
              rw [harith2]
              exact hmin (m + 1) y (by omega) (by simpa using hy))
          rw [hres, harith]

/-- A true `findIndex` predicate instance at a real index yields the settling
condition. -/
theorem settledFrom_of_pred_true {data : List ℚ} {sp : ℚ} {k : ℕ} {x : ℚ}
    (hk : data[k]? = some x)
    (hp : (decide (0 < k) && settleBand sp x
        && (data.drop k).all (settleBand sp)) = true) :
    settledFrom data sp k := by
  have hlen : k < data.length := (List.getElem?_eq_some.mp hk).1
  simp only [Bool.and_eq_true, decide_eq_true_eq] at hp
  exact ⟨hp.1.1, hlen, hp.2⟩

/-- The settling condition makes the `findIndex` predicate true at its index
(the predicate's middle conjunct is subsumed by the `all` over the tail). -/
theorem pred_true_of_settledFrom {data : List ℚ} {sp : ℚ} {k : ℕ}
    (h : settledFrom data sp k) :
    (decide (0 < k) && settleBand sp (data.get ⟨k, h.2.1⟩)
        && (data.drop k).all (settleBand sp)) = true := by
  obtain ⟨h1, h2, h3⟩ := h
  have hdrop : data.drop k = data.get ⟨k, h2⟩ :: data.drop (k + 1) :=
    List.drop_eq_getElem_cons h2
  have hband : settleBand sp (data.get ⟨k, h2⟩) = true := by
    have h4 := h3
    rw [hdrop] at h4
    simp only [List.all_cons, Bool.and_eq_true] at h4
    exact h4.1
  simp only [Bool.and_eq_true, decide_eq_true_eq]
  exact ⟨⟨h1, hband⟩, h3⟩

/-- C7 (amended): the settling-time analysis multiplies the raw `findIndex`
result by dt = 0.1 with no special case: when some real index `i > 0` keeps
every sample from `i` to the end inside the band `|pv - sp| < 0.05*sp` (no
absolute value on the setpoint), the result is the least such index times
0.1; otherwise `findIndex`'s -1 is multiplied through, and the result is the
negative time -0.1, not a distinct undefined value. -/
theorem C7_settlingTime_characterization (data : List ℚ) (sp : ℚ) :
    ((∀ i, ¬ settledFrom data sp i) ∧ settlingTime data sp = -(1/10)) ∨
    (∃ i, settledFrom data sp i ∧ (∀ j, j < i → ¬ settledFrom data sp j) ∧
      settlingTime data sp = (i : ℚ) * (1/10)) := by
  by_cases hex : ∃ i, settledFrom data sp i
  · right
    have h0 := Nat.find_spec hex
    refine ⟨Nat.find hex, h0, fun j hj => Nat.find_min hex hj, ?_⟩
    have hk : data[Nat.find hex]? = some (data.get ⟨Nat.find hex, h0.2.1⟩) :=
      List.getElem?_eq_getElem h0.2.1
    have heq := jsFindIndexFrom_eq_of_first
      (fun i pv => decide (0 < i) && settleBand sp pv
        && (data.drop i).all (settleBand sp))
      data 0 (Nat.find hex) (data.get ⟨Nat.find hex, h0.2.1⟩) hk
      (by simpa using pred_true_of_settledFrom h0)
      (fun m y hm hy => by
        simp only [Nat.zero_add]
        by_contra hb
        rw [Bool.not_eq_false] at hb
        exact Nat.find_min hex hm (settledFrom_of_pred_true hy hb))
    unfold settlingTime
    rw [heq]
    push_cast
    ring
  · left
    refine ⟨fun i hi => hex ⟨i, hi⟩, ?_⟩
    have heq := jsFindIndexFrom_eq_neg_one
      (fun i pv => decide (0 < i) && settleBand sp pv
        && (data.drop i).all (settleBand sp))
      data 0
      (fun k x hk => by
        simp only [Nat.zero_add]
        by_contra hb
        rw [Bool.not_eq_false] at hb
        exact hex ⟨k, settledFrom_of_pred_true hk hb⟩)
    unfold settlingTime
    rw [heq]
    norm_num

/-- C7 counterexample: on the trace [-1, -1] with setpoint -1 the claim's
rule (band `0.05*|setpoint|`, undefined when unsettled) gives the settling
time 0.1, while the code returns the negative time -0.1: its band
`0.05*setpoint` is negative for this setpoint so the search fails, and the
resulting -1 is multiplied by dt rather than special-cased. -/
theorem C7_counterexample :
    settlingTime [-1, -1] (-1) = -(1/10) ∧
    settlingTimeSpec [-1, -1] (-1) = some (1/10) := by
  constructor
  · norm_num [settlingTime, jsFindIndexFrom, settleBand]
  · norm_num [settlingTimeSpec, List.range_succ, List.find?, settleBand]

/-- The seed bounds the left fold of `max` from below. -/
theorem seed_le_foldl_max (l : List ℚ) (a : ℚ) :
    a ≤ l.foldl (fun m pv => max m pv) a := by
  induction l generalizing a with
  | nil => simp
  | cons y ys ih =>
      simp only [List.foldl_cons]
      exact le_trans (le_max_left a y) (ih (max a y))

/-- Every member bounds the left fold of `max` from below. -/
theorem mem_le_foldl_max {l : List ℚ} {x : ℚ} (hx : x ∈ l) (a : ℚ) :
    x ≤ l.foldl (fun m pv => max m pv) a := by
  induction l generalizing a with
  | nil => simp at hx
  | cons y ys ih =>
      simp only [List.foldl_cons]
      rcases List.mem_cons.mp hx with rfl | h
      · exact le_trans (le_max_right a x) (seed_le_foldl_max ys (max a x))
      · exact ih h (max a y)

/-- An upper bound of the seed and of all members bounds the left fold of
`max` from above. -/
theorem foldl_max_le {l : List ℚ} {a b : ℚ} (ha : a ≤ b)
    (h : ∀ x ∈ l, x ≤ b) : l.foldl (fun m pv => max m pv) a ≤ b := by
  induction l generalizing a with
  | nil => simpa using ha
  | cons y ys ih =>
      simp only [List.foldl_cons]
      exact ih (max_le ha (h y (List.mem_cons_self y ys)))
        (fun x hx => h x (List.mem_cons_of_mem y hx))

/-- C8 counterexample: on the single-sample trace [-1] with setpoint -1 the
process variable never exceeds the setpoint, yet the code reports overshoot
1 (not the claimed `max pv - setpoint = 0`, and not ≤ 0): the reduce is
seeded with 0, which floors the maximum at 0. -/
theorem C8_counterexample :
    overshoot [(-1 : ℚ)] (-1) = 1 ∧
    overshoot [(-1 : ℚ)] (-1) ≠ (-1) - (-1) ∧
    ¬ overshoot [(-1 : ℚ)] (-1) ≤ 0 := by
  norm_num [overshoot, max_def]

/-- C8 (amended): the overshoot analysis returns
`max(0, max pv over all samples) - setpoint`, always a number: it equals the
true maximum minus the setpoint whenever that maximum is ≥ 0, and for a
trajectory that never exceeds a nonnegative setpoint the result is ≤ 0. -/
theorem C8_overshoot_amended (pvs : List ℚ) (sp : ℚ) :
    (0 ≤ sp → (∀ pv ∈ pvs, pv ≤ sp) → overshoot pvs sp ≤ 0) ∧
    (∀ m : ℚ, pvs.maximum = (m : WithBot ℚ) → 0 ≤ m →
      overshoot pvs sp = m - sp) := by
  constructor
  · intro hsp hb
    have hle := foldl_max_le hsp hb
    unfold overshoot
    linarith
  · intro m hm h0
    have h1 : pvs.foldl (fun m2 pv => max m2 pv) 0 ≤ m :=
      foldl_max_le h0 (fun x hx => List.le_maximum_of_mem hx hm)
    have h2 : m ≤ pvs.foldl (fun m2 pv => max m2 pv) 0 :=
      mem_le_foldl_max (List.maximum_mem hm) 0
    unfold overshoot
    linarith

/-- Witness for C8 on the trace [2] with setpoint 3. -/
theorem C8_overshoot_amended_witness :
    overshoot [2] 3 ≤ 0 ∧ overshoot [2] 3 = 2 - 3 := by
  constructor
  · exact (C8_overshoot_amended [2] 3).1 (by norm_num)
      (List.forall_mem_singleton.mpr (by norm_num))
  · exact (C8_overshoot_amended [2] 3).2 2 (by simp [List.maximum_singleton])
      (by norm_num)

end Pid
